import Mathlib

/-!
Shallow embedding of the MCP proxy client (`src/mcpClient.ts`, extended
multi-transport version) for verifying the specification's claims.

Strings manipulated character-by-character in the source (the stdio frame
buffer, placeholder scanning) are modelled as `List Char`; opaque strings
(method names, URLs, error messages) stay `String`.  JavaScript `Map` is
modelled as an association list with insertion-order semantics.  External
library calls (`JSON.parse`, the HTTP POST round trip, the handshake
request/response outcomes awaited inside `start`) are oracles passed in as
parameters, so theorems quantify over every possible behaviour of the
environment.
-/

namespace McpProxy

/-- JSON values, used for request params and response results. -/
inductive Json where
  | null
  | bool (b : Bool)
  | num (n : Int)
  | str (s : String)
  | arr (xs : List Json)
  | obj (fields : List (String × Json))

/-- A JSON-RPC id is a number or a string (`number | string` in `types.ts`). -/
inductive RpcId where
  | num (n : Int)
  | str (s : String)
deriving DecidableEq

/-- `JsonRpcError` from `types.ts`: numeric code and message. -/
structure JsonRpcError where
  code : Int
  message : String
deriving DecidableEq

/-- `JsonRpcResponse` from `types.ts`, as seen at runtime by `handleMessage`:
the id may be absent (`message.id !== undefined` is checked), and result and
error are each optional. -/
structure JsonRpcResponse where
  id : Option RpcId
  result : Option Json
  error : Option JsonRpcError

/-- `InitializeResult` from `types.ts` (capabilities kept as raw JSON). -/
structure InitializeResult where
  protocolVersion : String
  capabilities : Json
  serverInfoName : String
  serverInfoVersion : String

/-- `McpTool` from `types.ts` (input schema kept as raw JSON). -/
structure McpTool where
  name : String
  description : Option String
  inputSchema : Json

/-- `McpServerType` from `types.ts`. -/
inductive McpServerType where
  | stdio
  | websocket
  | http
deriving DecidableEq

/-- `McpServerConfigExtended` from `types.ts`: transport kind plus the
per-kind fields (`command`/`args`/`env` for stdio, `url`/`headers` for
websocket and http). -/
structure McpServerConfigExtended where
  type : Option McpServerType
  command : Option String
  args : List String
  env : Option (List (String × String))
  url : Option String
  headers : List (String × String)

/-- `this.config.type || 'stdio'` — the effective transport kind. -/
def configType (cfg : McpServerConfigExtended) : McpServerType :=
  cfg.type.getD .stdio

/-- The child-process handle: whether `kill()` was called and whether the
stdin pipe exists (`this.process?.stdin`). -/
structure ProcHandle where
  killed : Bool
  hasStdin : Bool
deriving DecidableEq

/-- The `ws` readyState constants. -/
inductive WsReadyState where
  | CONNECTING
  | OPEN
  | CLOSING
  | CLOSED
deriving DecidableEq

/-- A websocket handle, carrying its readyState. -/
structure WsHandle where
  readyState : WsReadyState
deriving DecidableEq

/-- Entries appended to the output channel (`outputChannel.appendLine`).
Only the structure of each entry matters, not its exact formatting. -/
inductive LogEntry where
  | startingServer (command : String) (args : List String)
  | connectingWs (url : String)
  | usingHttp (url : String)
  | connectedTo (name version : String)
  | discovered (toolNames : List String)
  | sent (message : String)
  | received (line : List Char)
  | parseFailed (line : List Char)
  | wsInitFailed (err : String)
  | processExited (code : Option Int) (signal : Option String)
  | wsClosed (code : Int) (reason : String)

/-- How a pending request is finally settled: `resolve(message.result)` or
`reject(new Error(...))`. -/
inductive Outcome where
  | resolved (result : Option Json)
  | rejectedErr (msg : String)

/-- Events observable outside the client: a pending caller's promise being
settled, and the `'exit'` events emitted by the process-exit and
websocket-close handlers. -/
inductive ClientEvent where
  | settled (caller : Nat) (o : Outcome)
  | exited (code : Option Int) (signal : Option String)
  | wsExited (code : Int) (reason : String)

/-- The mutable fields of class `McpClient`.  Pending requests map an id to
an abstract caller token standing for the promise's resolve/reject pair. -/
structure ClientState where
  name : String
  process : Option ProcHandle
  ws : Option WsHandle
  httpUrl : Option String
  requestId : Nat
  pendingRequests : List (RpcId × Nat)
  buffer : List Char
  serverInfo : Option InitializeResult
  tools : List McpTool
  log : List LogEntry

/-- `Map.get`: first entry with the given key. -/
def mapGet (m : List (RpcId × Nat)) (k : RpcId) : Option Nat :=
  (m.find? (fun p => p.1 = k)).map (·.2)

/-- `Map.set`: overwrite in place if the key is present, else append. -/
def mapSet (m : List (RpcId × Nat)) (k : RpcId) (v : Nat) : List (RpcId × Nat) :=
  if (m.find? (fun p => p.1 = k)).isSome then
    m.map (fun p => if p.1 = k then (k, v) else p)
  else
    m ++ [(k, v)]

/-- `Map.delete`: remove the entry with the given key. -/
def mapDelete (m : List (RpcId × Nat)) (k : RpcId) : List (RpcId × Nat) :=
  m.filter (fun p => ¬ p.1 = k)

/-- `get isConnected()`: `this.process !== null && !this.process.killed`.
It consults only the child-process handle, never `ws` or `httpUrl`. -/
def isConnected (st : ClientState) : Bool :=
  match st.process with
  | some p => !p.killed
  | none => false

/-- `stop()`: kill the process if any, close the websocket if any, then
clear the http url, the tool list and the server identity.  The pending
table, buffer, request counter and log are left untouched. -/
def stop (st : ClientState) : ClientState :=
  { st with process := none, ws := none, httpUrl := none,
            tools := [], serverInfo := none }

/-- The error text used by `handleMessage` and the http branch for a
JSON-RPC error response: `` `${error.message} (code: ${error.code})` ``. -/
def fmtErr (e : JsonRpcError) : String :=
  e.message ++ " (code: " ++ toString e.code ++ ")"

/-- `handleMessage`: if the message has an id and it matches a pending
request, delete the entry and settle the caller (reject on an error member,
resolve with the result otherwise); otherwise do nothing. -/
def handleMessage (st : ClientState) (msg : JsonRpcResponse) :
    ClientState × List ClientEvent :=
  match msg.id with
  | none => (st, [])
  | some i =>
    match mapGet st.pendingRequests i with
    | none => (st, [])
    | some caller =>
      let st' := { st with pendingRequests := mapDelete st.pendingRequests i }
      match msg.error with
      | some e => (st', [.settled caller (.rejectedErr (fmtErr e))])
      | none => (st', [.settled caller (.resolved msg.result)])

/-- The `process.on('exit', ...)` handler: log, null the process handle and
emit an `'exit'` event.  It does not touch the pending-request table. -/
def onProcessExit (st : ClientState) (code : Option Int) (signal : Option String) :
    ClientState × List ClientEvent :=
  ({ st with process := none, log := st.log ++ [.processExited code signal] },
   [.exited code signal])

/-- The `ws.on('close', ...)` handler: log, null the websocket handle and
emit an `'exit'` event.  It does not touch the pending-request table. -/
def onWsClose (st : ClientState) (code : Int) (reason : String) :
    ClientState × List ClientEvent :=
  ({ st with ws := none, log := st.log ++ [.wsClosed code reason] },
   [.wsExited code reason])

/-- What a `sendRequest` call did: issue its own HTTP POST, write one frame
to a stream transport, or reject the caller immediately.  The allocated id
is carried where one was allocated (the stream guards allocate and register
an id before checking connectivity, then delete it again on failure). -/
inductive SendOutcome where
  | httpPosted (id : Nat) (method : String) (params : Json)
  | sentStream (id : Nat) (method : String) (params : Json)
  | rejectedNotConnected (id : Nat) (msg : String)
  | rejectedNoUrl (msg : String)

/-- `sendRequest`: the http branch allocates `++this.requestId` and issues a
POST without touching the pending table; the stdio/websocket branch
allocates the id, registers the pending entry, then either writes the frame
or (if the transport is gone) deletes the entry and rejects. -/
def sendRequest (cfg : McpServerConfigExtended) (st : ClientState)
    (caller : Nat) (method : String) (params : Json) :
    ClientState × SendOutcome :=
  if configType cfg = .http then
    match st.httpUrl with
    | none => (st, .rejectedNoUrl "HTTP transport not configured")
    | some _ =>
      let id := st.requestId + 1
      ({ st with requestId := id }, .httpPosted id method params)
  else
    let id := st.requestId + 1
    let st := { st with requestId := id, pendingRequests := mapSet st.pendingRequests (.num id) caller }
    if configType cfg = .stdio then
      match st.process with
      | some p =>
        if p.hasStdin then
          ({ st with log := st.log ++ [.sent method] }, .sentStream id method params)
        else
          ({ st with pendingRequests := mapDelete st.pendingRequests (.num id) },
           .rejectedNotConnected id "MCP server not connected")
      | none =>
        ({ st with pendingRequests := mapDelete st.pendingRequests (.num id) },
         .rejectedNotConnected id "MCP server not connected")
    else
      match st.ws with
      | some w =>
        if w.readyState = .OPEN then
          ({ st with log := st.log ++ [.sent method] }, .sentStream id method params)
        else
          ({ st with pendingRequests := mapDelete st.pendingRequests (.num id) },
           .rejectedNotConnected id "MCP WebSocket not connected")
      | none =>
        ({ st with pendingRequests := mapDelete st.pendingRequests (.num id) },
         .rejectedNotConnected id "MCP WebSocket not connected")

/-- What `sendNotification` did: issued a POST (http), wrote a frame
(stdio/websocket), or silently returned without sending anything. -/
inductive NotifyOutcome where
  | posted
  | written
  | dropped
deriving DecidableEq

/-- `sendNotification`: on every transport, when the transport is absent or
not open the notification is silently dropped (plain `return`), never an
error; POST errors for http notifications are swallowed. -/
def sendNotification (cfg : McpServerConfigExtended) (st : ClientState)
    (method : String) : ClientState × NotifyOutcome :=
  if configType cfg = .http then
    match st.httpUrl with
    | none => (st, .dropped)
    | some _ => (st, .posted)
  else if configType cfg = .stdio then
    match st.process with
    | some p =>
      if p.hasStdin then ({ st with log := st.log ++ [.sent method] }, .written)
      else (st, .dropped)
    | none => (st, .dropped)
  else
    match st.ws with
    | some w =>
      if w.readyState = .OPEN then ({ st with log := st.log ++ [.sent method] }, .written)
      else (st, .dropped)
    | none => (st, .dropped)

/-- The result of one `postJson` round trip: the promise rejects (network
error or unparsable body) or resolves with the parsed `JsonRpcResponse`. -/
def PostResult : Type := Except String JsonRpcResponse

/-- The `.then` continuation of the http branch of `sendRequest`
(plus `postJson`'s own rejection paths): throw on an error member of the
response body, otherwise resolve with its result member. -/
def httpComplete (post : PostResult) : Outcome :=
  match post with
  | .error e => .rejectedErr e
  | .ok resp =>
    match resp.error with
    | some e => .rejectedErr (fmtErr e)
    | none => .resolved resp.result

/-- An http-transport `sendRequest` together with the settlement of the
caller's promise from the POST's own response. -/
def httpCall (cfg : McpServerConfigExtended) (st : ClientState)
    (caller : Nat) (method : String) (params : Json) (post : PostResult) :
    ClientState × List ClientEvent :=
  match sendRequest cfg st caller method params with
  | (st', .httpPosted _ _ _) => (st', [.settled caller (httpComplete post)])
  | (st', .rejectedNoUrl msg) => (st', [.settled caller (.rejectedErr msg)])
  | (st', _) => (st', [])

/-! ## Stream framing (`handleData`) -/

/-- JavaScript `str.split('\n')` over a character list: always returns at
least one (possibly empty) piece. -/
def splitNl : List Char → List (List Char)
  | [] => [[]]
  | c :: rest =>
    if c = '\n' then [] :: splitNl rest
    else
      match splitNl rest with
      | [] => [[c]]
      | l :: ls => (c :: l) :: ls

/-- Inverse of `splitNl`: rejoin pieces with `'\n'`. -/
def joinNl : List (List Char) → List Char
  | [] => []
  | [l] => l
  | l :: ls => l ++ '\n' :: joinNl ls

/-- JavaScript `line.trim()` is truthy iff the line has a non-whitespace
character. -/
def lineNonBlank (l : List Char) : Bool :=
  l.any (fun c => !c.isWhitespace)

/-- Processing of one complete frame inside `handleData`'s loop: blank
lines are skipped silently; otherwise the line is logged as received and
parsed, a parse failure logging a diagnostic and dropping the line, a
success being dispatched to `handleMessage`. -/
def processLine (parse : List Char → Option JsonRpcResponse)
    (st : ClientState) (line : List Char) : ClientState × List ClientEvent :=
  if lineNonBlank line then
    let st := { st with log := st.log ++ [.received line] }
    match parse line with
    | some msg => handleMessage st msg
    | none => ({ st with log := st.log ++ [.parseFailed line] }, [])
  else
    (st, [])

/-- `handleData`'s loop over the complete frames, threading state and
collecting settlement events. -/
def processLines (parse : List Char → Option JsonRpcResponse)
    (st : ClientState) : List (List Char) → ClientState × List ClientEvent
  | [] => (st, [])
  | l :: ls =>
    ((processLines parse (processLine parse st l).1 ls).1,
     (processLine parse st l).2 ++ (processLines parse (processLine parse st l).1 ls).2)

/-- `handleData`: append the chunk to the buffer, split on newlines, keep
the trailing (incomplete) piece as the new buffer, and process each
complete frame in order. -/
def handleData (parse : List Char → Option JsonRpcResponse)
    (st : ClientState) (data : List Char) : ClientState × List ClientEvent :=
  processLines parse
    { st with buffer := (splitNl (st.buffer ++ data)).getLastD [] }
    (splitNl (st.buffer ++ data)).dropLast

/-! ## Placeholder resolution -/

/-- The ambient context consulted by `resolvePlaceholders`: the optional
`workspaceFolder` argument, the `vscode.workspace` fallback, the process
environment, the current directory and the platform flag. -/
structure ResolveCtx where
  wsFolderArg : Option String
  vsWorkspaceFolder : Option String
  env : String → Option String
  cwd : String
  isWin32 : Bool

/-- JavaScript `a || b` on strings, where `undefined` and `''` are falsy. -/
def jsOr (a : Option String) (b : String) : String :=
  match a with
  | some s => if s = "" then b else s
  | none => b

/-- `folder.split(/[\\/]/)`: split on slash or backslash. -/
def splitSlashes : List Char → List (List Char)
  | [] => [[]]
  | c :: rest =>
    if c = '/' ∨ c = '\\' then [] :: splitSlashes rest
    else
      match splitSlashes rest with
      | [] => [[c]]
      | l :: ls => (c :: l) :: ls

/-- The `workspaceFolder` value:
`workspaceFolder || vscode.workspace.workspaceFolders?.[0]?.uri.fsPath || ''`. -/
def wsFolderValue (ctx : ResolveCtx) : String :=
  jsOr ctx.wsFolderArg (jsOr ctx.vsWorkspaceFolder "")

/-- `placeholder.startsWith('env:')` at the character level. -/
def envPrefixed : List Char → Bool
  | 'e' :: 'n' :: 'v' :: ':' :: _ => true
  | _ => false

/-- `placeholder.substring(4)` for an `env:`-prefixed body. -/
def envSuffix : List Char → List Char
  | 'e' :: 'n' :: 'v' :: ':' :: v => v
  | l => l

/-- The replacement for one `${...}` token body (the callback of the
`value.replace` call): `env:`-prefixed bodies read the environment (empty
string when unset), the five named tokens read the context, and an unknown
body returns the whole match verbatim. -/
def replaceToken (ctx : ResolveCtx) (content : List Char) : List Char :=
  if envPrefixed content then
    (jsOr (ctx.env (String.mk (envSuffix content))) "").data
  else if content = "workspaceFolder".data then
    (wsFolderValue ctx).data
  else if content = "workspaceFolderBasename".data then
    let folder := wsFolderValue ctx
    if folder = "" then []
    else
      let pieces := splitSlashes folder.data
      (jsOr (some (String.mk (pieces.getLastD []))) "").data
  else if content = "userHome".data then
    (jsOr (ctx.env "HOME") (jsOr (ctx.env "USERPROFILE") "")).data
  else if content = "cwd".data then
    ctx.cwd.data
  else if content = "pathSeparator".data then
    if ctx.isWin32 then ['\\'] else ['/']
  else
    '$' :: '{' :: content ++ ['}']

/-- The scanning loop of `value.replace(/\$\{([^}]+)\}/g, ...)`: at each
position, `${` followed by a non-empty brace-free body and `}` is a match
handed to the callback; otherwise the scanner advances one character
(an unmatched `${` is emitted as-is). -/
def scan (ctx : ResolveCtx) : List Char → List Char
  | '$' :: '{' :: rest =>
    (let content := rest.takeWhile (fun c => ¬ c = '}')
     let rem := rest.dropWhile (fun c => ¬ c = '}')
     if content.isEmpty ∨ rem.isEmpty then '$' :: scan ctx ('{' :: rest)
     else replaceToken ctx content ++ scan ctx rem.tail)
  | c :: rest => c :: scan ctx rest
  | [] => []
termination_by l => l.length
decreasing_by
  · simp
  · have h1 : (rest.dropWhile (fun c => ¬ c = '}')).length ≤ rest.length :=
      (List.dropWhile_suffix _).length_le
    have h2 : (rest.dropWhile (fun c => ¬ c = '}')).tail.length =
        (rest.dropWhile (fun c => ¬ c = '}')).length - 1 := List.length_tail _
    simp only [List.length_cons]
    omega
  · simp

/-- `resolvePlaceholders` on strings. -/
def resolvePlaceholders (ctx : ResolveCtx) (value : String) : String :=
  String.mk (scan ctx value.data)

/-! ## `start()` and the handshake -/

/-- The outcomes the environment supplies for the two awaited handshake
requests: what `sendRequest('initialize', ...)` and
`sendRequest('tools/list', ...)` eventually settle with (`.error` covering
transport rejection, parse failure and JSON-RPC error responses alike). -/
structure Handshake where
  initResult : Except String InitializeResult
  toolsResult : Except String (List McpTool)

/-- How the promise returned by `start()` behaves. -/
inductive StartResult where
  | rejected (err : String)
  | ready
  | openedDeferred
  | earlyReturn
deriving DecidableEq

/-- `initialize()` followed by `discoverTools()`: on a successful
initialize, record the server identity and send the `initialized`
notification; on a successful discovery, replace the tool list; the first
failing step aborts with its error, keeping the state reached so far. -/
def runHandshake (cfg : McpServerConfigExtended) (st : ClientState)
    (h : Handshake) : ClientState × Option String :=
  match h.initResult with
  | .error e => (st, some e)
  | .ok info =>
    let st := { st with serverInfo := some info, log := st.log ++ [.connectedTo info.serverInfoName info.serverInfoVersion] }
    let st := (sendNotification cfg st "notifications/initialized").1
    match h.toolsResult with
    | .error e => (st, some e)
    | .ok ts =>
      ({ st with tools := ts, log := st.log ++ [.discovered (ts.map McpTool.name)] }, none)

/-- `start()`: early-return when a process handle already exists; require
the per-kind config field; for stdio spawn the child and await the
handshake; for websocket create the socket, register handlers and return at
once — the handshake runs later in the `'open'` handler; for http resolve
the url and await the handshake over POSTs. -/
def start (cfg : McpServerConfigExtended) (ctx : ResolveCtx)
    (st : ClientState) (h : Handshake) : ClientState × StartResult :=
  if st.process.isSome then (st, .earlyReturn)
  else
    match configType cfg with
    | .stdio =>
      match cfg.command with
      | none => (st, .rejected "stdio transport requires a `command` in server config")
      | some cmd =>
        let command := resolvePlaceholders ctx cmd
        let args := cfg.args.map (resolvePlaceholders ctx)
        let st := { st with process := some { killed := false, hasStdin := true }, log := st.log ++ [.startingServer command args] }
        match runHandshake cfg st h with
        | (st', some e) => (st', .rejected e)
        | (st', none) => (st', .ready)
    | .websocket =>
      match cfg.url with
      | none => (st, .rejected "WebSocket transport requires a `url` in server config")
      | some u =>
        let url := resolvePlaceholders ctx u
        let st := { st with ws := some { readyState := .CONNECTING }, log := st.log ++ [.connectingWs url] }
        (st, .openedDeferred)
    | .http =>
      match cfg.url with
      | none => (st, .rejected "HTTP transport requires a `url` in server config")
      | some u =>
        let url := resolvePlaceholders ctx u
        let st := { st with httpUrl := some url, log := st.log ++ [.usingHttp url] }
        match runHandshake cfg st h with
        | (st', some e) => (st', .rejected e)
        | (st', none) => (st', .ready)

/-- The `ws.on('open', ...)` handler: run the handshake; any error is
caught and logged, reaching nobody — the promise `start()` returned has
already resolved. -/
def wsOpenHandler (cfg : McpServerConfigExtended) (st : ClientState)
    (h : Handshake) : ClientState :=
  match runHandshake cfg { st with ws := some { readyState := .OPEN } } h with
  | (st', none) => st'
  | (st', some e) => { st' with log := st'.log ++ [.wsInitFailed e] }

/-! ## Operation traces -/

/-- One externally triggered operation on a session. -/
inductive Op where
  | send (caller : Nat) (method : String) (params : Json)
  | notify (method : String)
  | recvData (chunk : List Char)
  | procExit (code : Option Int) (signal : Option String)
  | wsClose (code : Int) (reason : String)
  | stopOp

/-- The id allocated by a `sendRequest` call, when one was. -/
def allocOf : SendOutcome → Option Nat
  | .httpPosted i _ _ => some i
  | .sentStream i _ _ => some i
  | .rejectedNotConnected i _ => some i
  | .rejectedNoUrl _ => none

/-- One step of a session: apply the operation, reporting the id the step
allocated, if any. -/
def step (cfg : McpServerConfigExtended)
    (parse : List Char → Option JsonRpcResponse)
    (st : ClientState) : Op → ClientState × Option Nat
  | .send caller method params =>
    let (st', out) := sendRequest cfg st caller method params
    (st', allocOf out)
  | .notify method => ((sendNotification cfg st method).1, none)
  | .recvData chunk => ((handleData parse st chunk).1, none)
  | .procExit code signal => ((onProcessExit st code signal).1, none)
  | .wsClose code reason => ((onWsClose st code reason).1, none)
  | .stopOp => (stop st, none)

/-- Run a list of operations, collecting the allocated request ids in
order. -/
def runTrace (cfg : McpServerConfigExtended)
    (parse : List Char → Option JsonRpcResponse)
    (st : ClientState) : List Op → ClientState × List Nat
  | [] => (st, [])
  | op :: ops =>
    let (st', i) := step cfg parse st op
    let (st'', ids) := runTrace cfg parse st' ops
    (st'', i.toList ++ ids)

/-- Every id currently pending is numeric and at most the current request
counter (`Bool`-valued so concrete instances evaluate). -/
def pendingBounded (st : ClientState) : Bool :=
  st.pendingRequests.all (fun p =>
    match p.1 with
    | .num n => n ≤ (st.requestId : Int)
    | .str _ => true)

/-- Along a trace, every allocated id is fresh: not pending at the moment
of its allocation. -/
def allocFresh (cfg : McpServerConfigExtended)
    (parse : List Char → Option JsonRpcResponse)
    (st : ClientState) : List Op → Bool
  | [] => true
  | op :: ops =>
    let (st', i) := step cfg parse st op
    (match i with
     | some n => (mapGet st.pendingRequests (.num n)).isNone
     | none => true) && allocFresh cfg parse st' ops

/-! ## Spec-side token decomposition for the resolver claim -/

/-- A placeholder-bearing string decomposed the way the spec describes it:
literal text interleaved with `${...}` token bodies. -/
inductive Piece where
  | lit (text : List Char)
  | tok (content : List Char)

/-- Rebuild the concrete input string from its decomposition. -/
def renderPieces : List Piece → List Char
  | [] => []
  | .lit t :: ps => t ++ renderPieces ps
  | .tok c :: ps => '$' :: '{' :: c ++ '}' :: renderPieces ps

/-- The spec's description of resolution: replace each token body by the
callback's value, leave literal text untouched. -/
def substPieces (ctx : ResolveCtx) : List Piece → List Char
  | [] => []
  | .lit t :: ps => t ++ substPieces ctx ps
  | .tok c :: ps => replaceToken ctx c ++ substPieces ctx ps

/-- Well-formedness of a decomposition: literal pieces contain no `'$'`
and token bodies are non-empty and brace-free. -/
def piecesWF : List Piece → Bool
  | [] => true
  | .lit t :: ps => t.all (fun c => ¬ c = '$') && piecesWF ps
  | .tok c :: ps => (!c.isEmpty) && c.all (fun ch => ¬ ch = '}') && piecesWF ps

/-! ## Response delivery sequences -/

/-- The settlement `handleMessage` produces for a matched response. -/
def outcomeOf (m : JsonRpcResponse) : Outcome :=
  match m.error with
  | some e => .rejectedErr (fmtErr e)
  | none => .resolved m.result

/-- Deliver a sequence of responses in order, collecting all events. -/
def deliverAll (st : ClientState) : List JsonRpcResponse → ClientState × List ClientEvent
  | [] => (st, [])
  | m :: ms =>
    let (st', evs) := handleMessage st m
    let (st'', evs') := deliverAll st' ms
    (st'', evs ++ evs')

/-- Events that settle the given caller's promise. -/
def settledFor (c : Nat) : ClientEvent → Bool
  | .settled c' _ => c' = c
  | _ => false

/-! ## Concrete instances used by witnesses and counterexamples -/

/-- A parse oracle that rejects every line (as `JSON.parse` does on
whitespace or malformed text). -/
def parse0 : List Char → Option JsonRpcResponse := fun _ => none

/-- A freshly constructed client. -/
def st0 : ClientState :=
  { name := "srv", process := none, ws := none, httpUrl := none,
    requestId := 0, pendingRequests := [], buffer := [],
    serverInfo := none, tools := [], log := [] }

/-- A connected stdio client. -/
def stR : ClientState := { st0 with process := some { killed := false, hasStdin := true } }

/-- A connected stdio client with one pending request, id 1 held by
caller 7. -/
def stP : ClientState :=
  { st0 with process := some { killed := false, hasStdin := true },
             requestId := 1, pendingRequests := [(.num 1, 7)] }

/-- A stdio configuration (`type` omitted, defaulting to stdio). -/
def cfgStdio : McpServerConfigExtended :=
  { type := none, command := some "node", args := [], env := none,
    url := none, headers := [] }

/-- A websocket configuration. -/
def cfgWs : McpServerConfigExtended :=
  { type := some .websocket, command := none, args := [], env := none,
    url := some "ws://h", headers := [] }

/-- An http configuration. -/
def cfgHttp : McpServerConfigExtended :=
  { type := some .http, command := none, args := [], env := none,
    url := some "http://h", headers := [] }

/-- An empty resolution context. -/
def ctx0 : ResolveCtx :=
  { wsFolderArg := none, vsWorkspaceFolder := none, env := fun _ => none,
    cwd := "/", isWin32 := false }

/-- A resolution context with `FOO` and `HOME` set. -/
def ctx1 : ResolveCtx :=
  { wsFolderArg := none, vsWorkspaceFolder := none,
    env := fun v => if v = "FOO" then some "bar" else if v = "HOME" then some "/home/u" else none,
    cwd := "/", isWin32 := false }

/-- A server-identity value. -/
def info0 : InitializeResult :=
  { protocolVersion := "2024-11-05", capabilities := .null,
    serverInfoName := "mock", serverInfoVersion := "0.1" }

/-- A fully successful handshake. -/
def hsOk : Handshake := { initResult := .ok info0, toolsResult := .ok [] }

/-- A handshake whose initialize step fails. -/
def hsFail : Handshake := { initResult := .error "boom", toolsResult := .ok [] }

/-- A decomposition exercising an env token, a literal, a recognized named
token and an unrecognized token. -/
def ps1 : List Piece :=
  [.tok "env:FOO".data, .lit "/x".data, .tok "userHome".data, .tok "unknownToken".data]

/-- A short operation trace issuing three requests with a stop in between. -/
def ops1 : List Op :=
  [.send 21 "initialize" .null, .send 22 "tools/list" .null, .stopOp, .send 23 "tools/call" .null]

/-- A client with requests 1 and 2 pending for callers 100 and 200. -/
def stW : ClientState :=
  { st0 with requestId := 2, pendingRequests := [(.num 1, 100), (.num 2, 200)] }

/-- A successful response carrying a text result. -/
def respOk (n : Int) (tag : String) : JsonRpcResponse :=
  { id := some (.num n), result := some (.str tag), error := none }

/-! # Helper lemmas -/

theorem sendNotification_log (cfg : McpServerConfigExtended) (st : ClientState)
    (m : String) : ∃ lg, (sendNotification cfg st m).1 = { st with log := lg } := by
  unfold sendNotification
  repeat' split
  all_goals exact ⟨_, rfl⟩

theorem runHandshake_shape (cfg : McpServerConfigExtended) (st : ClientState)
    (h : Handshake) :
    ∃ si ts lg, (runHandshake cfg st h).1 =
      { st with serverInfo := si, tools := ts, log := lg } := by
  unfold runHandshake
  cases hi : h.initResult with
  | error e => exact ⟨st.serverInfo, st.tools, st.log, rfl⟩
  | ok info =>
    obtain ⟨lg, hlg⟩ := sendNotification_log cfg
      { st with serverInfo := some info,
                log := st.log ++ [.connectedTo info.serverInfoName info.serverInfoVersion] }
      "notifications/initialized"
    cases ht : h.toolsResult with
    | error e =>
      refine ⟨some info, st.tools, lg, ?_⟩
      simp only [hlg]
    | ok ts =>
      refine ⟨some info, ts, lg ++ [.discovered (ts.map McpTool.name)], ?_⟩
      simp only [hlg]

/-! # Claim theorems -/

/-- C8: `stop()` is idempotent: it is total (no error) from every state,
a second call leaves the state unchanged, and after `stop()` the tool list
is empty and the server identity is cleared. -/
theorem c8_stop_idempotent (st : ClientState) :
    stop (stop st) = stop st ∧ (stop st).tools = [] ∧ (stop st).serverInfo = none :=
  ⟨rfl, rfl, rfl⟩

/-- C1 (amended): on unsolicited transport closure — child-process exit or
websocket close — the handler clears the transport reference and emits an
exit event, but the pending-request table is untouched: no pending request
is rejected; all remain unresolved. -/
theorem c1_close_leaves_pending (st : ClientState) (code : Option Int)
    (signal : Option String) (wcode : Int) (reason : String) :
    ((onProcessExit st code signal).1.pendingRequests = st.pendingRequests ∧
      (onProcessExit st code signal).2 = [.exited code signal] ∧
      (onProcessExit st code signal).1.process = none) ∧
    ((onWsClose st wcode reason).1.pendingRequests = st.pendingRequests ∧
      (onWsClose st wcode reason).2 = [.wsExited wcode reason] ∧
      (onWsClose st wcode reason).1.ws = none) :=
  ⟨⟨rfl, rfl, rfl⟩, ⟨rfl, rfl, rfl⟩⟩

/-- C1 counterexample: a session with request id 1 pending for caller 7
undergoes a process exit; no settlement event is emitted and the request is
still pending afterwards, so the pending request is left unresolved, not
rejected. -/
theorem c1_cex :
    (¬ ∃ o, ClientEvent.settled 7 o ∈ (onProcessExit stP (some 0) none).2) ∧
    (RpcId.num 1, 7) ∈ (onProcessExit stP (some 0) none).1.pendingRequests := by
  constructor
  · rintro ⟨o, ho⟩
    simp [onProcessExit] at ho
  · simp [onProcessExit, stP, st0]

/-- C10: with the http transport, `sendRequest` never touches the
pending-request table; when a url is configured it allocates
`requestId + 1` — the same shared counter every stream-transport send uses —
issues its own POST, and the caller is settled solely from that POST's
response body. -/
theorem c10_http_stateless (cfg : McpServerConfigExtended) (st : ClientState)
    (caller : Nat) (method : String) (params : Json) (post : PostResult)
    (hty : configType cfg = .http) :
    (sendRequest cfg st caller method params).1.pendingRequests = st.pendingRequests ∧
    (httpCall cfg st caller method params post).1.pendingRequests = st.pendingRequests ∧
    (∀ u, st.httpUrl = some u →
      (sendRequest cfg st caller method params).2 = .httpPosted (st.requestId + 1) method params ∧
      (sendRequest cfg st caller method params).1.requestId = st.requestId + 1 ∧
      (httpCall cfg st caller method params post).2 = [.settled caller (httpComplete post)]) ∧
    (∀ cfg' : McpServerConfigExtended, ¬ configType cfg' = .http →
      allocOf (sendRequest cfg' st caller method params).2 = some (st.requestId + 1)) := by
  refine ⟨?_, ?_, ?_, ?_⟩
  · unfold sendRequest
    rw [if_pos hty]
    cases h : st.httpUrl <;> simp
  · unfold httpCall sendRequest
    rw [if_pos hty]
    cases h : st.httpUrl <;> simp
  · intro u hu
    unfold httpCall sendRequest
    rw [if_pos hty, hu]
    simp
  · intro cfg' hty'
    unfold sendRequest
    rw [if_neg hty']
    by_cases hs : configType cfg' = McpServerType.stdio
    · rw [if_pos hs]
      cases h : st.process with
      | none => simp [allocOf]
      | some p => cases hp : p.hasStdin <;> simp [hp, allocOf]
    · rw [if_neg hs]
      cases h : st.ws with
      | none => simp [allocOf]
      | some w =>
        by_cases hw : w.readyState = WsReadyState.OPEN <;> simp [hw, allocOf]

/-- C10 witness: instantiating at the concrete http configuration with a
url present and a concrete POST result. -/
theorem c10_witness :
    (sendRequest cfgHttp { st0 with httpUrl := some "http://h" } 5 "tools/list" .null).2 =
      .httpPosted 1 "tools/list" .null ∧
    (sendRequest cfgHttp { st0 with httpUrl := some "http://h" } 5 "tools/list" .null).1.pendingRequests = [] := by
  have h := c10_http_stateless cfgHttp { st0 with httpUrl := some "http://h" }
    5 "tools/list" .null (.error "refused") rfl
  exact ⟨(h.2.2.1 "http://h" rfl).1, h.1⟩

/-- C6 (amended): after `stop()` has closed the transport, every request
send rejects with a transport-specific not-connected error, but every
notification send is silently dropped — it returns without error and
without transmitting. -/
theorem c6_send_after_stop (cfg : McpServerConfigExtended) (st : ClientState)
    (caller : Nat) (method : String) (params : Json) :
    (configType cfg = .stdio →
      (sendRequest cfg (stop st) caller method params).2 =
        .rejectedNotConnected ((stop st).requestId + 1) "MCP server not connected") ∧
    (configType cfg = .websocket →
      (sendRequest cfg (stop st) caller method params).2 =
        .rejectedNotConnected ((stop st).requestId + 1) "MCP WebSocket not connected") ∧
    (configType cfg = .http →
      (sendRequest cfg (stop st) caller method params).2 =
        .rejectedNoUrl "HTTP transport not configured") ∧
    sendNotification cfg (stop st) method = (stop st, .dropped) := by
  refine ⟨?_, ?_, ?_, ?_⟩
  · intro hty
    unfold sendRequest
    rw [if_neg (by rw [hty]; intro hc; cases hc), if_pos hty]
    simp [stop]
  · intro hty
    unfold sendRequest
    rw [if_neg (by rw [hty]; intro hc; cases hc),
        if_neg (by rw [hty]; intro hc; cases hc)]
    simp [stop]
  · intro hty
    unfold sendRequest
    rw [if_pos hty]
    simp [stop]
  · unfold sendNotification
    rcases hty : configType cfg with _ | _ | _ <;> simp [stop]

/-- C6 counterexample: after `stop()`, a notification on the stdio session
is silently dropped — the call returns with the state unchanged and no
rejection of any kind, contradicting "every subsequent send fails with a
rejection". -/
theorem c6_cex :
    sendNotification cfgStdio (stop stR) "notifications/initialized" =
      (stop stR, .dropped) := rfl

/-- C6 witness: the stdio rejection branch at concrete inputs. -/
theorem c6_witness :
    (sendRequest cfgStdio (stop stR) 5 "tools/call" .null).2 =
      .rejectedNotConnected 1 "MCP server not connected" :=
  (c6_send_after_stop cfgStdio stR 5 "tools/call" .null).1 rfl

theorem runHandshake_process (cfg : McpServerConfigExtended) (st : ClientState)
    (h : Handshake) : (runHandshake cfg st h).1.process = st.process := by
  obtain ⟨si, ts, lg, heq⟩ := runHandshake_shape cfg st h
  rw [heq]

theorem isConnected_none (st : ClientState) (hp : st.process = none) :
    isConnected st = false := by
  unfold isConnected
  rw [hp]

theorem start_stdio_eq (cfg : McpServerConfigExtended) (ctx : ResolveCtx)
    (st : ClientState) (h : Handshake) (cmd : String)
    (hty : configType cfg = .stdio) (hp : st.process = none)
    (hcmd : cfg.command = some cmd) :
    start cfg ctx st h =
      (match runHandshake cfg
          { st with process := some { killed := false, hasStdin := true },
                    log := st.log ++ [.startingServer (resolvePlaceholders ctx cmd)
                      (cfg.args.map (resolvePlaceholders ctx))] } h with
       | (st', some e) => (st', .rejected e)
       | (st', none) => (st', .ready)) := by
  unfold start
  rw [hp, hty, hcmd]
  rfl

theorem start_ws_eq (cfg : McpServerConfigExtended) (ctx : ResolveCtx)
    (st : ClientState) (h : Handshake) (u : String)
    (hty : configType cfg = .websocket) (hp : st.process = none)
    (hu : cfg.url = some u) :
    start cfg ctx st h =
      ({ st with ws := some { readyState := WsReadyState.CONNECTING },
                 log := st.log ++ [.connectingWs (resolvePlaceholders ctx u)] },
       .openedDeferred) := by
  unfold start
  rw [hp, hty, hu]
  rfl

theorem start_http_eq (cfg : McpServerConfigExtended) (ctx : ResolveCtx)
    (st : ClientState) (h : Handshake) (u : String)
    (hty : configType cfg = .http) (hp : st.process = none)
    (hu : cfg.url = some u) :
    start cfg ctx st h =
      (match runHandshake cfg
          { st with httpUrl := some (resolvePlaceholders ctx u),
                    log := st.log ++ [.usingHttp (resolvePlaceholders ctx u)] } h with
       | (st', some e) => (st', .rejected e)
       | (st', none) => (st', .ready)) := by
  unfold start
  rw [hp, hty, hu]
  rfl

theorem wsOpenHandler_process (cfg : McpServerConfigExtended) (st : ClientState)
    (h : Handshake) : (wsOpenHandler cfg st h).process = st.process := by
  unfold wsOpenHandler
  have hps := runHandshake_process cfg { st with ws := some { readyState := WsReadyState.OPEN } } h
  rcases hrh : runHandshake cfg { st with ws := some { readyState := WsReadyState.OPEN } } h
    with ⟨st', oe⟩
  rw [hrh] at hps
  cases oe <;> simpa using hps

theorem handshake_match_process (cfg : McpServerConfigExtended) (st : ClientState)
    (h : Handshake) :
    (match runHandshake cfg st h with
     | (st', some e) => (st', StartResult.rejected e)
     | (st', none) => (st', StartResult.ready)).1.process = st.process := by
  have hps := runHandshake_process cfg st h
  rcases hrh : runHandshake cfg st h with ⟨st', oe⟩
  rw [hrh] at hps
  cases oe <;> simpa using hps

theorem runHandshake_err_init (cfg : McpServerConfigExtended) (st : ClientState)
    (h : Handshake) (e : String) (hi : h.initResult = .error e) :
    (runHandshake cfg st h).2 = some e := by
  unfold runHandshake
  rw [hi]

theorem runHandshake_err_tools (cfg : McpServerConfigExtended) (st : ClientState)
    (h : Handshake) (info : InitializeResult) (e : String)
    (hi : h.initResult = .ok info) (ht : h.toolsResult = .error e) :
    (runHandshake cfg st h).2 = some e := by
  unfold runHandshake
  rw [hi]
  obtain ⟨lg, hlg⟩ := sendNotification_log cfg
    { st with serverInfo := some info,
              log := st.log ++ [.connectedTo info.serverInfoName info.serverInfoVersion] }
    "notifications/initialized"
  rw [ht]

theorem handshake_match_rejected (cfg : McpServerConfigExtended) (st : ClientState)
    (h : Handshake) (e : String) (herr : (runHandshake cfg st h).2 = some e) :
    (match runHandshake cfg st h with
     | (st', some e) => (st', StartResult.rejected e)
     | (st', none) => (st', StartResult.ready)).2 = .rejected e := by
  rcases hrh : runHandshake cfg st h with ⟨st', oe⟩
  rw [hrh] at herr
  simp only at herr
  rw [herr]

/-- C2 (amended): a failing handshake step — a failed/erroring initialize
or tools/list — makes `start()` reject with the originating error on the
stdio and http transports; on the websocket transport, `start()` resolves
immediately after initiating the connection regardless of the handshake
outcome, whose failure is caught in the open handler and only logged. -/
theorem c2_start_handshake_failure (cfg : McpServerConfigExtended)
    (ctx : ResolveCtx) (st : ClientState) (h : Handshake) :
    (configType cfg = .stdio → st.process = none → ∀ cmd, cfg.command = some cmd →
      (∀ e, h.initResult = .error e → (start cfg ctx st h).2 = .rejected e) ∧
      (∀ info e, h.initResult = .ok info → h.toolsResult = .error e →
        (start cfg ctx st h).2 = .rejected e)) ∧
    (configType cfg = .http → st.process = none → ∀ u, cfg.url = some u →
      (∀ e, h.initResult = .error e → (start cfg ctx st h).2 = .rejected e) ∧
      (∀ info e, h.initResult = .ok info → h.toolsResult = .error e →
        (start cfg ctx st h).2 = .rejected e)) ∧
    (configType cfg = .websocket → st.process = none → ∀ u, cfg.url = some u →
      (start cfg ctx st h).2 = .openedDeferred) ∧
    (∀ e, h.initResult = .error e → ∀ st',
      (wsOpenHandler cfg st' h).log = st'.log ++ [.wsInitFailed e]) := by
  refine ⟨?_, ?_, ?_, ?_⟩
  · intro hty hp cmd hcmd
    constructor
    · intro e he
      rw [start_stdio_eq cfg ctx st h cmd hty hp hcmd]
      exact handshake_match_rejected cfg _ h e (runHandshake_err_init cfg _ h e he)
    · intro info e hi ht
      rw [start_stdio_eq cfg ctx st h cmd hty hp hcmd]
      exact handshake_match_rejected cfg _ h e (runHandshake_err_tools cfg _ h info e hi ht)
  · intro hty hp u hu
    constructor
    · intro e he
      rw [start_http_eq cfg ctx st h u hty hp hu]
      exact handshake_match_rejected cfg _ h e (runHandshake_err_init cfg _ h e he)
    · intro info e hi ht
      rw [start_http_eq cfg ctx st h u hty hp hu]
      exact handshake_match_rejected cfg _ h e (runHandshake_err_tools cfg _ h info e hi ht)
  · intro hty hp u hu
    rw [start_ws_eq cfg ctx st h u hty hp hu]
  · intro e he st'
    unfold wsOpenHandler
    have hrh : runHandshake cfg { st' with ws := some { readyState := WsReadyState.OPEN } } h
        = ({ st' with ws := some { readyState := WsReadyState.OPEN } }, some e) := by
      unfold runHandshake
      rw [he]
    rw [hrh]

/-- C2 counterexample: a websocket session whose initialize step fails with
"boom": `start()` still resolves (`openedDeferred`), it does not reject with
the originating error. -/
theorem c2_cex :
    (start cfgWs ctx0 st0 hsFail).2 = .openedDeferred ∧
    ¬ (start cfgWs ctx0 st0 hsFail).2 = .rejected "boom" := by
  constructor
  · rfl
  · intro hc
    simp [start, cfgWs, configType, st0, hsFail] at hc

/-- C2 witness: the stdio branch applied at a concrete failing handshake. -/
theorem c2_witness :
    (start cfgStdio ctx0 st0 hsFail).2 = .rejected "boom" :=
  ((c2_start_handshake_failure cfgStdio ctx0 st0 hsFail).1 rfl rfl "node" rfl).1 "boom" rfl

/-- C3 (amended): `isConnected` reflects only the child-process transport:
it is true after a successful stdio `start()` and false after `stop()` or a
process exit; for websocket and http sessions it is false even after
`start()` completes successfully and while the transport is usable. -/
theorem c3_isConnected (cfg : McpServerConfigExtended) (ctx : ResolveCtx)
    (st : ClientState) (h : Handshake) :
    (configType cfg = .stdio → st.process = none → ∀ cmd, cfg.command = some cmd →
      (start cfg ctx st h).2 = .ready → isConnected (start cfg ctx st h).1 = true) ∧
    (configType cfg = .websocket → st.process = none → ∀ u, cfg.url = some u →
      isConnected (start cfg ctx st h).1 = false ∧
      isConnected (wsOpenHandler cfg (start cfg ctx st h).1 h) = false) ∧
    (configType cfg = .http → st.process = none →
      isConnected (start cfg ctx st h).1 = false) ∧
    isConnected (stop st) = false ∧
    (∀ code signal, isConnected (onProcessExit st code signal).1 = false) := by
  refine ⟨?_, ?_, ?_, rfl, fun code signal => rfl⟩
  · intro hty hp cmd hcmd _
    rw [start_stdio_eq cfg ctx st h cmd hty hp hcmd]
    have hps := handshake_match_process cfg
      { st with process := some { killed := false, hasStdin := true },
                log := st.log ++ [.startingServer (resolvePlaceholders ctx cmd)
                  (cfg.args.map (resolvePlaceholders ctx))] } h
    unfold isConnected
    rw [hps]
    rfl
  · intro hty hp u hu
    rw [start_ws_eq cfg ctx st h u hty hp hu]
    constructor
    · exact isConnected_none _ hp
    · have hwp := wsOpenHandler_process cfg
        { st with ws := some { readyState := WsReadyState.CONNECTING },
                  log := st.log ++ [.connectingWs (resolvePlaceholders ctx u)] } h
      apply isConnected_none
      rw [hwp]
      exact hp
  · intro hty hp
    cases hu : cfg.url with
    | none =>
      unfold start
      rw [hp, hty, hu]
      exact isConnected_none _ hp
    | some u =>
      rw [start_http_eq cfg ctx st h u hty hp hu]
      have hps := handshake_match_process cfg
        { st with httpUrl := some (resolvePlaceholders ctx u),
                  log := st.log ++ [.usingHttp (resolvePlaceholders ctx u)] } h
      apply isConnected_none
      rw [hps]
      exact hp

/-- C3 counterexample: an http session completes `start()` successfully
(handshake ok, result `ready`) yet `isConnected` is false. -/
theorem c3_cex :
    (start cfgHttp ctx0 st0 hsOk).2 = .ready ∧
    isConnected (start cfgHttp ctx0 st0 hsOk).1 = false := ⟨rfl, rfl⟩

/-- C3 witness: the stdio branch at a concrete successful start. -/
theorem c3_witness : isConnected (start cfgStdio ctx0 st0 hsOk).1 = true :=
  (c3_isConnected cfgStdio ctx0 st0 hsOk).1 rfl rfl "node" rfl rfl

theorem takeWhile_append_stop (p : Char → Bool) (xs : List Char) (y : Char)
    (ys : List Char) (hxs : ∀ x ∈ xs, p x = true) (hy : p y = false) :
    (xs ++ y :: ys).takeWhile p = xs := by
  induction xs with
  | nil => simp [List.takeWhile, hy]
  | cons a as ih =>
    have ha : p a = true := hxs a (List.mem_cons_self a as)
    simp only [List.cons_append, List.takeWhile_cons, ha]
    simp only [if_true]
    rw [ih (fun x hx => hxs x (List.mem_cons_of_mem a hx))]

theorem dropWhile_append_stop (p : Char → Bool) (xs : List Char) (y : Char)
    (ys : List Char) (hxs : ∀ x ∈ xs, p x = true) (hy : p y = false) :
    (xs ++ y :: ys).dropWhile p = y :: ys := by
  induction xs with
  | nil => simp [List.dropWhile, hy]
  | cons a as ih =>
    have ha : p a = true := hxs a (List.mem_cons_self a as)
    simp only [List.cons_append, List.dropWhile_cons, ha]
    simp only [if_true]
    exact ih (fun x hx => hxs x (List.mem_cons_of_mem a hx))

theorem scan_cons_ne (ctx : ResolveCtx) (c : Char) (l : List Char)
    (hc : ¬ c = '$') : scan ctx (c :: l) = c :: scan ctx l := by
  rw [scan.eq_def]
  split
  · rename_i rest heq
    exact absurd (List.cons.inj heq).1 hc
  · rename_i c2 rest2 hnm heq
    obtain ⟨h1, h2⟩ := List.cons.inj heq
    rw [h1, h2]
  · rename_i heq
    cases heq

theorem scan_tok (ctx : ResolveCtx) (content rest : List Char)
    (hne : content ≠ []) (hbr : ∀ x ∈ content, ¬ x = '}') :
    scan ctx ('$' :: '{' :: (content ++ '}' :: rest)) =
      replaceToken ctx content ++ scan ctx rest := by
  rw [scan.eq_def]
  have htake : (content ++ '}' :: rest).takeWhile (fun x => ¬ x = '}') = content :=
    takeWhile_append_stop _ content '}' rest
      (fun x hx => by simpa using hbr x hx) (by simp)
  have hdrop : (content ++ '}' :: rest).dropWhile (fun x => ¬ x = '}') = '}' :: rest :=
    dropWhile_append_stop _ content '}' rest
      (fun x hx => by simpa using hbr x hx) (by simp)
  simp only [htake, hdrop]
  rw [if_neg]
  · rfl
  · simp [List.isEmpty_iff, hne]

theorem scan_lit (ctx : ResolveCtx) (t rest : List Char)
    (ht : ∀ x ∈ t, ¬ x = '$') :
    scan ctx (t ++ rest) = t ++ scan ctx rest := by
  induction t with
  | nil => rfl
  | cons a as ih =>
    rw [List.cons_append, scan_cons_ne ctx a (as ++ rest) (ht a (List.mem_cons_self a as)),
        ih (fun x hx => ht x (List.mem_cons_of_mem a hx))]
    simp

/-- C9: placeholder resolution is the pure token-by-token substitution the
spec describes: over any decomposition of the input into literal text and
`${...}` tokens, the scanner replaces each token independently —
`${env:VAR}` by the environment value (empty string when unset), a
recognized named token by its context value, an unrecognized token kept
verbatim — and leaves literal text unchanged. -/
theorem c9_resolve_placeholders (ctx : ResolveCtx) :
    (∀ ps, piecesWF ps = true → scan ctx (renderPieces ps) = substPieces ctx ps) ∧
    (∀ v, replaceToken ctx ('e' :: 'n' :: 'v' :: ':' :: v) =
      (jsOr (ctx.env (String.mk v)) "").data) ∧
    replaceToken ctx "userHome".data =
      (jsOr (ctx.env "HOME") (jsOr (ctx.env "USERPROFILE") "")).data ∧
    replaceToken ctx "workspaceFolder".data = (wsFolderValue ctx).data ∧
    (∀ content, envPrefixed content = false →
      ¬ content = "workspaceFolder".data →
      ¬ content = "workspaceFolderBasename".data →
      ¬ content = "userHome".data →
      ¬ content = "cwd".data →
      ¬ content = "pathSeparator".data →
      replaceToken ctx content = '$' :: '{' :: content ++ ['}']) := by
  refine ⟨?_, ?_, ?_, ?_, ?_⟩
  · intro ps hwf
    induction ps with
    | nil =>
      show scan ctx [] = []
      rw [scan.eq_def]
    | cons p ps ih =>
      cases p with
      | lit t =>
        simp only [piecesWF, Bool.and_eq_true] at hwf
        simp only [renderPieces, substPieces]
        rw [scan_lit ctx t (renderPieces ps) (by
          intro x hx
          have := List.all_eq_true.mp hwf.1 x hx
          simpa using this)]
        rw [ih hwf.2]
      | tok c =>
        simp only [piecesWF, Bool.and_eq_true] at hwf
        simp only [renderPieces, substPieces, List.cons_append]
        rw [scan_tok ctx c (renderPieces ps)
          (by
            intro hc
            rw [hc] at hwf
            simp at hwf)
          (by
            intro x hx
            have := List.all_eq_true.mp hwf.1.2 x hx
            simpa using this)]
        rw [ih hwf.2]
  · intro v
    simp [replaceToken, envPrefixed, envSuffix]
  · rfl
  · rfl
  · intro content h0 h1 h2 h3 h4 h5
    unfold replaceToken
    rw [if_neg (by simp [h0]), if_neg h1, if_neg h2, if_neg h3, if_neg h4, if_neg h5]

/-- C9 witness: the refinement and the verbatim case at concrete inputs:
`"${env:FOO}/x${userHome}${unknownToken}"` under a context where `FOO=bar`
and `HOME=/home/u`. -/
theorem c9_witness :
    scan ctx1 (renderPieces ps1) = substPieces ctx1 ps1 ∧
    replaceToken ctx1 "unknownToken".data = '$' :: '{' :: "unknownToken".data ++ ['}'] :=
  ⟨(c9_resolve_placeholders ctx1).1 ps1 (by decide),
   (c9_resolve_placeholders ctx1).2.2.2.2 "unknownToken".data
     (by decide) (by decide) (by decide) (by decide) (by decide) (by decide)⟩

theorem mapGet_mem (m : List (RpcId × Nat)) (i : RpcId) (c : Nat)
    (h : mapGet m i = some c) : (i, c) ∈ m := by
  unfold mapGet at h
  cases hf : m.find? (fun p => p.1 = i) with
  | none => rw [hf] at h; cases h
  | some p =>
    rw [hf] at h
    have hp := List.find?_some hf
    have hm := List.mem_of_find?_eq_some hf
    simp at hp h
    have : p = (i, c) := by
      cases p with
      | mk a b => simp at hp h; rw [hp, h]
    rw [← this]
    exact hm

theorem mapGet_mapDelete_ne (m : List (RpcId × Nat)) (i j : RpcId)
    (hij : ¬ j = i) : mapGet (mapDelete m i) j = mapGet m j := by
  induction m with
  | nil => rfl
  | cons p m' ih =>
    by_cases hk : p.1 = i
    · have : mapDelete (p :: m') i = mapDelete m' i := by
        simp [mapDelete, List.filter_cons, hk]
      rw [this, ih]
      unfold mapGet
      rw [List.find?_cons_of_neg]
      simp
      rw [hk]
      intro hc
      exact hij hc.symm
    · have : mapDelete (p :: m') i = p :: mapDelete m' i := by
        simp [mapDelete, List.filter_cons, hk]
      rw [this]
      by_cases hj : p.1 = j
      · unfold mapGet
        rw [List.find?_cons_of_pos _ (by simp [hj]), List.find?_cons_of_pos _ (by simp [hj])]
      · unfold mapGet
        rw [List.find?_cons_of_neg _ (by simp [hj]), List.find?_cons_of_neg _ (by simp [hj])]
        exact ih

theorem mapGet_mapDelete_self (m : List (RpcId × Nat)) (i : RpcId) :
    mapGet (mapDelete m i) i = none := by
  induction m with
  | nil => rfl
  | cons p m' ih =>
    by_cases hk : p.1 = i
    · have : mapDelete (p :: m') i = mapDelete m' i := by
        simp [mapDelete, List.filter_cons, hk]
      rw [this, ih]
    · have : mapDelete (p :: m') i = p :: mapDelete m' i := by
        simp [mapDelete, List.filter_cons, hk]
      rw [this]
      unfold mapGet
      rw [List.find?_cons_of_neg _ (by simp [hk])]
      exact ih

theorem mapDelete_sublist (m : List (RpcId × Nat)) (i : RpcId) :
    (mapDelete m i).Sublist m := List.filter_sublist m

theorem pending_inj (m : List (RpcId × Nat)) (hsnd : (m.map Prod.snd).Nodup)
    (i j : RpcId) (c : Nat) (hi : (i, c) ∈ m) (hj : (j, c) ∈ m) : i = j := by
  have := List.inj_on_of_nodup_map hsnd hi hj rfl
  exact (Prod.mk.inj this).1

theorem deliver_no_settle (st : ClientState) (msgs : List JsonRpcResponse)
    (c : Nat) (hc : ¬ c ∈ st.pendingRequests.map Prod.snd) :
    ((deliverAll st msgs).2.filter (settledFor c)) = [] := by
  induction msgs generalizing st with
  | nil => rfl
  | cons m ms ih =>
    show (((handleMessage st m).2 ++ (deliverAll (handleMessage st m).1 ms).2).filter
      (settledFor c)) = []
    rw [List.filter_append]
    cases hid : m.id with
    | none =>
      simp only [handleMessage, hid]
      rw [ih st hc]
      rfl
    | some i =>
      cases hget : mapGet st.pendingRequests i with
      | none =>
        simp only [handleMessage, hid, hget]
        rw [ih st hc]
        rfl
      | some c' =>
        have hmem : (i, c') ∈ st.pendingRequests := mapGet_mem _ _ _ hget
        have hc' : c' ∈ st.pendingRequests.map Prod.snd :=
          List.mem_map_of_mem Prod.snd hmem
        have hcc : ¬ c' = c := fun h => hc (h ▸ hc')
        have hdel : ¬ c ∈ (mapDelete st.pendingRequests i).map Prod.snd := by
          intro hmem'
          exact hc (((mapDelete_sublist st.pendingRequests i).map Prod.snd).mem hmem')
        cases herr : m.error with
        | some e =>
          simp only [handleMessage, hid, hget, herr]
          rw [ih _ hdel]
          simp [settledFor, hcc]
        | none =>
          simp only [handleMessage, hid, hget, herr]
          rw [ih _ hdel]
          simp [settledFor, hcc]

/-- C4: responses are correlated to callers purely by id: a response whose
id matches no pending request (absent id, late or duplicate) is ignored and
settles nothing; and over any delivery order of any response sequence, a
caller holding a pending id is settled exactly once, with exactly the
response bearing that id. -/
theorem c4_correlation :
    (∀ (st : ClientState) (m : JsonRpcResponse),
      (m.id = none → handleMessage st m = (st, [])) ∧
      (∀ i, m.id = some i → mapGet st.pendingRequests i = none →
        handleMessage st m = (st, []))) ∧
    (∀ (st : ClientState) (msgs : List JsonRpcResponse) (i : RpcId) (c : Nat)
      (m : JsonRpcResponse),
      (st.pendingRequests.map Prod.fst).Nodup →
      (st.pendingRequests.map Prod.snd).Nodup →
      mapGet st.pendingRequests i = some c →
      m ∈ msgs → m.id = some i →
      (∀ m' ∈ msgs, m'.id = some i → m' = m) →
      (deliverAll st msgs).2.filter (settledFor c) = [.settled c (outcomeOf m)]) := by
  constructor
  · intro st m
    constructor
    · intro hid
      simp [handleMessage, hid]
    · intro i hid hget
      simp [handleMessage, hid, hget]
  · intro st msgs i c m hfst hsnd hget hmem hid huniq
    induction msgs generalizing st with
    | nil => cases hmem
    | cons m0 ms ih =>
      show (((handleMessage st m0).2 ++ (deliverAll (handleMessage st m0).1 ms).2).filter
        (settledFor c)) = _
      rw [List.filter_append]
      by_cases hm0 : m0 = m
      · subst hm0
        have hdel : ¬ c ∈ (mapDelete st.pendingRequests i).map Prod.snd := by
          intro hmem'
          obtain ⟨p, hp, hpc⟩ := List.mem_map.mp hmem'
          have hpm : p ∈ st.pendingRequests := (mapDelete_sublist _ _).mem hp
          have hkey : ¬ p.1 = i := by
            intro hk
            have : mapGet (mapDelete st.pendingRequests i) p.1 = none := by
              rw [hk]; exact mapGet_mapDelete_self _ _
            have hpmem : (p.1, p.2) ∈ mapDelete st.pendingRequests i := by
              simpa using hp
            unfold mapGet at this
            cases hf : (mapDelete st.pendingRequests i).find? (fun q => q.1 = p.1) with
            | none =>
              have := List.find?_eq_none.mp hf (p.1, p.2) hpmem
              simp at this
            | some q => rw [hf] at this; cases this
          have hik : (p.1, c) ∈ st.pendingRequests := by
            rw [← hpc]; simpa using hpm
          have := pending_inj st.pendingRequests hsnd p.1 i c hik (mapGet_mem _ _ _ hget)
          exact hkey this
        cases herr : m0.error with
        | some e =>
          simp only [handleMessage, hid, hget, herr]
          rw [deliver_no_settle _ ms c hdel]
          simp [settledFor, outcomeOf, herr]
        | none =>
          simp only [handleMessage, hid, hget, herr]
          rw [deliver_no_settle _ ms c hdel]
          simp [settledFor, outcomeOf, herr]
      · have hmem' : m ∈ ms := by
          rcases List.mem_cons.mp hmem with h | h
          · exact absurd h.symm hm0
          · exact h
        have huniq' : ∀ m' ∈ ms, m'.id = some i → m' = m :=
          fun m' hm' hi' => huniq m' (List.mem_cons_of_mem m0 hm') hi'
        have hid0 : ¬ m0.id = some i := by
          intro h
          exact hm0 (huniq m0 (List.mem_cons_self m0 ms) h)
        cases hid0' : m0.id with
        | none =>
          simp only [handleMessage, hid0']
          rw [ih st hfst hsnd hget hmem' huniq']
          rfl
        | some j =>
          have hji : ¬ j = i := by
            intro h
            rw [h] at hid0'
            exact hid0 hid0'
          cases hget0 : mapGet st.pendingRequests j with
          | none =>
            simp only [handleMessage, hid0', hget0]
            rw [ih st hfst hsnd hget hmem' huniq']
            rfl
          | some c0 =>
            have hc0 : ¬ c0 = c := by
              intro h
              have h1 : (j, c) ∈ st.pendingRequests := by
                rw [← h]; exact mapGet_mem _ _ _ hget0
              have h2 : (i, c) ∈ st.pendingRequests := mapGet_mem _ _ _ hget
              exact hji (pending_inj st.pendingRequests hsnd j i c h1 h2)
            have hfst' : ((mapDelete st.pendingRequests j).map Prod.fst).Nodup :=
              hfst.sublist ((mapDelete_sublist _ _).map Prod.fst)
            have hsnd' : ((mapDelete st.pendingRequests j).map Prod.snd).Nodup :=
              hsnd.sublist ((mapDelete_sublist _ _).map Prod.snd)
            have hget' : mapGet (mapDelete st.pendingRequests j) i = some c := by
              rw [mapGet_mapDelete_ne _ _ _ (fun h => hji h.symm)]
              exact hget
            cases herr : m0.error with
            | some e =>
              simp only [handleMessage, hid0', hget0, herr]
              rw [ih _ hfst' hsnd' hget' hmem' huniq']
              simp [settledFor, hc0]
            | none =>
              simp only [handleMessage, hid0', hget0, herr]
              rw [ih _ hfst' hsnd' hget' hmem' huniq']
              simp [settledFor, hc0]

/-- C4 witness: two pending requests; responses delivered out of order;
caller 100 receives exactly the response with its id 1. -/
theorem c4_witness :
    (deliverAll stW [respOk 2 "r2", respOk 1 "r1"]).2.filter (settledFor 100) =
      [.settled 100 (outcomeOf (respOk 1 "r1"))] :=
  c4_correlation.2 stW [respOk 2 "r2", respOk 1 "r1"] (.num 1) 100 (respOk 1 "r1")
    (by decide) (by decide) (by decide) (by simp)
    rfl
    (by
      intro m' hm' hi'
      rcases List.mem_cons.mp hm' with h | h
      · rw [h] at hi'
        simp [respOk] at hi'
      · simpa using h)

/-! # Request-id allocation along traces (C5) -/

theorem mapSet_mem (m : List (RpcId × Nat)) (k : RpcId) (v : Nat)
    (p : RpcId × Nat) (hp : p ∈ mapSet m k v) : p ∈ m ∨ p = (k, v) := by
  unfold mapSet at hp
  split at hp
  · obtain ⟨q, hq, hfq⟩ := List.mem_map.mp hp
    by_cases hqk : q.1 = k
    · right
      rw [if_pos hqk] at hfq
      exact hfq.symm
    · left
      rw [if_neg hqk] at hfq
      rw [← hfq]
      exact hq
  · rcases List.mem_append.mp hp with h | h
    · exact Or.inl h
    · right
      simpa using h

theorem pendingBounded_iff (st : ClientState) :
    pendingBounded st = true ↔
      ∀ p ∈ st.pendingRequests, ∀ n : Int, p.1 = RpcId.num n →
        n ≤ (st.requestId : Int) := by
  unfold pendingBounded
  rw [List.all_eq_true]
  constructor
  · intro hall p hp n hn
    have := hall p hp
    rw [hn] at this
    simpa using this
  · intro hall p hp
    cases hk : p.1 with
    | num n => simpa using hall p hp n hk
    | str s => simp

theorem handleMessage_frame (st : ClientState) (m : JsonRpcResponse) :
    (handleMessage st m).1.requestId = st.requestId ∧
    (handleMessage st m).1.process = st.process ∧
    (handleMessage st m).1.ws = st.ws ∧
    (handleMessage st m).1.httpUrl = st.httpUrl ∧
    (handleMessage st m).1.buffer = st.buffer ∧
    (∀ p ∈ (handleMessage st m).1.pendingRequests, p ∈ st.pendingRequests) := by
  cases hid : m.id with
  | none =>
    simp only [handleMessage, hid]
    exact ⟨by trivial, by trivial, by trivial, by trivial, by trivial, fun p hp => hp⟩
  | some i =>
    cases hget : mapGet st.pendingRequests i with
    | none =>
      simp only [handleMessage, hid, hget]
      exact ⟨by trivial, by trivial, by trivial, by trivial, by trivial, fun p hp => hp⟩
    | some c =>
      cases herr : m.error with
      | some e =>
        simp only [handleMessage, hid, hget, herr]
        exact ⟨by trivial, by trivial, by trivial, by trivial, by trivial,
          fun p hp => (mapDelete_sublist _ _).mem hp⟩
      | none =>
        simp only [handleMessage, hid, hget, herr]
        exact ⟨by trivial, by trivial, by trivial, by trivial, by trivial,
          fun p hp => (mapDelete_sublist _ _).mem hp⟩

theorem processLine_frame (parse : List Char → Option JsonRpcResponse)
    (st : ClientState) (l : List Char) :
    (processLine parse st l).1.requestId = st.requestId ∧
    (processLine parse st l).1.process = st.process ∧
    (processLine parse st l).1.ws = st.ws ∧
    (processLine parse st l).1.httpUrl = st.httpUrl ∧
    (processLine parse st l).1.buffer = st.buffer ∧
    (∀ p ∈ (processLine parse st l).1.pendingRequests, p ∈ st.pendingRequests) := by
  unfold processLine
  by_cases hb : lineNonBlank l = true
  · rw [if_pos hb]
    cases hp : parse l with
    | none => exact ⟨rfl, rfl, rfl, rfl, rfl, fun p hp => hp⟩
    | some msg =>
      have := handleMessage_frame { st with log := st.log ++ [.received l] } msg
      simpa using this
  · rw [if_neg hb]
    exact ⟨rfl, rfl, rfl, rfl, rfl, fun p hp => hp⟩

theorem processLines_frame (parse : List Char → Option JsonRpcResponse)
    (st : ClientState) (ls : List (List Char)) :
    (processLines parse st ls).1.requestId = st.requestId ∧
    (processLines parse st ls).1.process = st.process ∧
    (processLines parse st ls).1.ws = st.ws ∧
    (processLines parse st ls).1.httpUrl = st.httpUrl ∧
    (processLines parse st ls).1.buffer = st.buffer ∧
    (∀ p ∈ (processLines parse st ls).1.pendingRequests, p ∈ st.pendingRequests) := by
  induction ls generalizing st with
  | nil => exact ⟨rfl, rfl, rfl, rfl, rfl, fun p hp => hp⟩
  | cons l ls ih =>
    have h1 := processLine_frame parse st l
    have h2 := ih (processLine parse st l).1
    exact ⟨h2.1.trans h1.1, h2.2.1.trans h1.2.1, h2.2.2.1.trans h1.2.2.1,
      h2.2.2.2.1.trans h1.2.2.2.1, h2.2.2.2.2.1.trans h1.2.2.2.2.1,
      fun p hp => h1.2.2.2.2.2 p (h2.2.2.2.2.2 p hp)⟩

theorem handleData_frame (parse : List Char → Option JsonRpcResponse)
    (st : ClientState) (data : List Char) :
    (handleData parse st data).1.requestId = st.requestId ∧
    (handleData parse st data).1.process = st.process ∧
    (handleData parse st data).1.ws = st.ws ∧
    (handleData parse st data).1.httpUrl = st.httpUrl ∧
    (∀ p ∈ (handleData parse st data).1.pendingRequests, p ∈ st.pendingRequests) := by
  unfold handleData
  have h := processLines_frame parse
    { st with buffer := (splitNl (st.buffer ++ data)).getLastD [] }
    (splitNl (st.buffer ++ data)).dropLast
  exact ⟨h.1, h.2.1, h.2.2.1, h.2.2.2.1, fun p hp => h.2.2.2.2.2 p hp⟩

theorem sendRequest_alloc (cfg : McpServerConfigExtended) (st : ClientState)
    (caller : Nat) (method : String) (params : Json) :
    ((sendRequest cfg st caller method params).1 = st ∧
      allocOf (sendRequest cfg st caller method params).2 = none) ∨
    ((sendRequest cfg st caller method params).1.requestId = st.requestId + 1 ∧
      allocOf (sendRequest cfg st caller method params).2 = some (st.requestId + 1) ∧
      (∀ p ∈ (sendRequest cfg st caller method params).1.pendingRequests,
        p ∈ st.pendingRequests ∨ p = (.num (st.requestId + 1), caller))) := by
  unfold sendRequest
  by_cases hty : configType cfg = McpServerType.http
  · rw [if_pos hty]
    split
    · exact Or.inl ⟨rfl, rfl⟩
    · exact Or.inr ⟨rfl, rfl, fun p hp => Or.inl hp⟩
  · rw [if_neg hty]
    by_cases hs : configType cfg = McpServerType.stdio
    · rw [if_pos hs]
      split
      · split
        · exact Or.inr ⟨rfl, rfl, fun q hq => mapSet_mem _ _ _ q hq⟩
        · exact Or.inr ⟨rfl, rfl, fun q hq =>
            mapSet_mem _ _ _ q ((mapDelete_sublist _ _).mem hq)⟩
      · exact Or.inr ⟨rfl, rfl, fun q hq =>
          mapSet_mem _ _ _ q ((mapDelete_sublist _ _).mem hq)⟩
    · rw [if_neg hs]
      split
      · split
        · exact Or.inr ⟨rfl, rfl, fun q hq => mapSet_mem _ _ _ q hq⟩
        · exact Or.inr ⟨rfl, rfl, fun q hq =>
            mapSet_mem _ _ _ q ((mapDelete_sublist _ _).mem hq)⟩
      · exact Or.inr ⟨rfl, rfl, fun q hq =>
          mapSet_mem _ _ _ q ((mapDelete_sublist _ _).mem hq)⟩

theorem step_frame (cfg : McpServerConfigExtended)
    (parse : List Char → Option JsonRpcResponse) (st : ClientState) (op : Op) :
    st.requestId ≤ (step cfg parse st op).1.requestId ∧
    ((step cfg parse st op).2 = none →
      (step cfg parse st op).1.requestId = st.requestId ∨
      (step cfg parse st op).1.requestId = st.requestId + 1) ∧
    (∀ n, (step cfg parse st op).2 = some n →
      n = st.requestId + 1 ∧ (step cfg parse st op).1.requestId = n) ∧
    (pendingBounded st = true → pendingBounded (step cfg parse st op).1 = true) := by
  cases op with
  | send caller method params =>
    rcases sendRequest_alloc cfg st caller method params with ⟨heq, hal⟩ | ⟨hid, hal, hsub⟩
    · refine ⟨?_, fun _ => Or.inl ?_, ?_, fun hb => ?_⟩
      · show st.requestId ≤ (sendRequest cfg st caller method params).1.requestId
        rw [heq]
      · show (sendRequest cfg st caller method params).1.requestId = st.requestId
        rw [heq]
      · intro n hn
        have hn' : allocOf (sendRequest cfg st caller method params).2 = some n := hn
        rw [hal] at hn'
        cases hn'
      · show pendingBounded (sendRequest cfg st caller method params).1 = true
        rw [heq]
        exact hb
    · refine ⟨?_, fun hnone => ?_, ?_, fun hb => ?_⟩
      · show st.requestId ≤ (sendRequest cfg st caller method params).1.requestId
        rw [hid]
        omega
      · exact absurd
          (show allocOf (sendRequest cfg st caller method params).2 = none from hnone)
          (by rw [hal]; simp)
      · intro n hn
        have hn' : allocOf (sendRequest cfg st caller method params).2 = some n := hn
        rw [hal] at hn'
        injection hn' with h
        refine ⟨h.symm, ?_⟩
        show (sendRequest cfg st caller method params).1.requestId = n
        rw [hid]
        exact h
      · show pendingBounded (sendRequest cfg st caller method params).1 = true
        rw [pendingBounded_iff] at hb ⊢
        intro p hp n hn
        rcases hsub p hp with hmem | hnew
        · have := hb p hmem n hn
          rw [hid]
          push_cast
          omega
        · rw [hnew] at hn
          simp at hn
          rw [hid]
          rw [← hn]
          push_cast
          omega
  | notify method =>
    obtain ⟨lg, hlg⟩ := sendNotification_log cfg st method
    refine ⟨?_, fun _ => Or.inl ?_, ?_, fun hb => ?_⟩
    · show st.requestId ≤ (sendNotification cfg st method).1.requestId
      rw [hlg]
    · show (sendNotification cfg st method).1.requestId = st.requestId
      rw [hlg]
    · intro n hn
      exact absurd (show (none : Option Nat) = some n from hn) (by simp)
    · show pendingBounded (sendNotification cfg st method).1 = true
      rw [hlg]
      rw [pendingBounded_iff] at hb ⊢
      intro p hp n hn
      exact hb p hp n hn
  | recvData chunk =>
    have h := handleData_frame parse st chunk
    refine ⟨?_, fun _ => Or.inl ?_, ?_, fun hb => ?_⟩
    · show st.requestId ≤ (handleData parse st chunk).1.requestId
      rw [h.1]
    · exact h.1
    · intro n hn
      exact absurd (show (none : Option Nat) = some n from hn) (by simp)
    · show pendingBounded (handleData parse st chunk).1 = true
      rw [pendingBounded_iff] at hb ⊢
      intro p hp n hn
      rw [h.1]
      exact hb p (h.2.2.2.2 p hp) n hn
  | procExit code signal =>
    refine ⟨le_refl _, fun _ => Or.inl rfl, ?_, fun hb => ?_⟩
    · intro n hn
      exact absurd (show (none : Option Nat) = some n from hn) (by simp)
    · show pendingBounded (onProcessExit st code signal).1 = true
      rw [pendingBounded_iff] at hb ⊢
      intro p hp n hn
      exact hb p hp n hn
  | wsClose code reason =>
    refine ⟨le_refl _, fun _ => Or.inl rfl, ?_, fun hb => ?_⟩
    · intro n hn
      exact absurd (show (none : Option Nat) = some n from hn) (by simp)
    · show pendingBounded (onWsClose st code reason).1 = true
      rw [pendingBounded_iff] at hb ⊢
      intro p hp n hn
      exact hb p hp n hn
  | stopOp =>
    refine ⟨le_refl _, fun _ => Or.inl rfl, ?_, fun hb => ?_⟩
    · intro n hn
      exact absurd (show (none : Option Nat) = some n from hn) (by simp)
    · show pendingBounded (stop st) = true
      rw [pendingBounded_iff] at hb ⊢
      intro p hp n hn
      exact hb p hp n hn

theorem alloc_fresh_of_bounded (cfg : McpServerConfigExtended)
    (parse : List Char → Option JsonRpcResponse) (st : ClientState) (op : Op)
    (hb : pendingBounded st = true) (n : Nat)
    (hn : (step cfg parse st op).2 = some n) :
    (mapGet st.pendingRequests (.num n)).isNone = true := by
  have hchar := (step_frame cfg parse st op).2.2.1 n hn
  cases hget : mapGet st.pendingRequests (.num n) with
  | none => rfl
  | some c =>
    exfalso
    have hmem := mapGet_mem _ _ _ hget
    have := (pendingBounded_iff st).mp hb (RpcId.num n, c) hmem n rfl
    rw [hchar.1] at this
    push_cast at this
    omega

theorem runTrace_spec (cfg : McpServerConfigExtended)
    (parse : List Char → Option JsonRpcResponse) (ops : List Op) (st : ClientState)
    (hb : pendingBounded st = true) :
    List.Pairwise (· < ·) (runTrace cfg parse st ops).2 ∧
    (∀ n ∈ (runTrace cfg parse st ops).2, st.requestId < n) ∧
    allocFresh cfg parse st ops = true := by
  induction ops generalizing st with
  | nil =>
    refine ⟨?_, ?_, rfl⟩
    · exact List.Pairwise.nil
    · intro n hn
      exact absurd (show n ∈ ([] : List Nat) from hn) (by simp)
  | cons op ops ih =>
    have hf := step_frame cfg parse st op
    have hb' := hf.2.2.2 hb
    obtain ⟨hpw, hgt, hfr⟩ := ih (step cfg parse st op).1 hb'
    have hids : (runTrace cfg parse st (op :: ops)).2
        = (step cfg parse st op).2.toList ++ (runTrace cfg parse (step cfg parse st op).1 ops).2 := rfl
    cases hal : (step cfg parse st op).2 with
    | none =>
      refine ⟨?_, ?_, ?_⟩
      · rw [hids, hal]
        simpa using hpw
      · intro n hn
        rw [hids, hal] at hn
        simp only [Option.toList_none, List.nil_append] at hn
        have := hgt n hn
        rcases hf.2.1 hal with heq | heq <;> omega
      · show ((match (step cfg parse st op).2 with
          | some n => (mapGet st.pendingRequests (.num n)).isNone
          | none => true) && allocFresh cfg parse (step cfg parse st op).1 ops) = true
        rw [hal, hfr]
        rfl
    | some n0 =>
      have hchar := hf.2.2.1 n0 hal
      refine ⟨?_, ?_, ?_⟩
      · rw [hids, hal]
        simp only [Option.toList_some, List.singleton_append]
        refine List.Pairwise.cons ?_ hpw
        intro n hn
        have := hgt n hn
        omega
      · intro n hn
        rw [hids, hal] at hn
        simp only [Option.toList_some, List.singleton_append, List.mem_cons] at hn
        rcases hn with rfl | hn
        · omega
        · have := hgt n hn
          omega
      · have hfresh := alloc_fresh_of_bounded cfg parse st op hb n0 hal
        show ((match (step cfg parse st op).2 with
          | some n => (mapGet st.pendingRequests (.num n)).isNone
          | none => true) && allocFresh cfg parse (step cfg parse st op).1 ops) = true
        rw [hal, hfr]
        show ((mapGet st.pendingRequests (.num n0)).isNone && true) = true
        rw [hfresh]
        rfl

/-- C5: along every operation trace from a state whose pending ids are
bounded by the request counter, the allocated request ids are pairwise
strictly increasing (hence unique for the session's lifetime), and every
allocation is fresh — its id is not pending at the moment of allocation. -/
theorem c5_request_ids (cfg : McpServerConfigExtended)
    (parse : List Char → Option JsonRpcResponse) (ops : List Op)
    (st : ClientState) (hb : pendingBounded st = true) :
    List.Pairwise (· < ·) (runTrace cfg parse st ops).2 ∧
    (runTrace cfg parse st ops).2.Nodup ∧
    allocFresh cfg parse st ops = true := by
  obtain ⟨hpw, _, hfr⟩ := runTrace_spec cfg parse ops st hb
  exact ⟨hpw, hpw.imp Nat.ne_of_lt, hfr⟩

/-- C5 witness: a concrete trace on a connected stdio session — ids 1, 2
are allocated, the session stops, a rejected send still allocates id 3;
ids are strictly increasing and fresh throughout. -/
theorem c5_witness :
    List.Pairwise (· < ·) (runTrace cfgStdio parse0 stR ops1).2 ∧
    (runTrace cfgStdio parse0 stR ops1).2.Nodup ∧
    allocFresh cfgStdio parse0 stR ops1 = true :=
  c5_request_ids cfgStdio parse0 ops1 stR (by decide)

/-! # Stream framing (C7) -/

theorem splitNl_ne_nil (l : List Char) : splitNl l ≠ [] := by
  induction l with
  | nil => simp [splitNl]
  | cons c rest ih =>
    by_cases hc : c = '\n'
    · simp [splitNl, hc]
    · simp only [splitNl, if_neg hc]
      cases h : splitNl rest with
      | nil => simp
      | cons x xs => simp

theorem getLastD_congr {α : Type} (l : List α) (d d' : α) (h : l ≠ []) :
    l.getLastD d = l.getLastD d' := by
  cases l with
  | nil => exact absurd rfl h
  | cons a l => rw [List.getLastD_cons, List.getLastD_cons]

theorem splitNl_cons_nl (x : List Char) : splitNl ('\n' :: x) = [] :: splitNl x := by
  simp [splitNl]

theorem splitNl_cons_ne (c : Char) (x : List Char) (hc : ¬ c = '\n') :
    splitNl (c :: x) =
      (match splitNl x with
       | [] => [[c]]
       | l :: ls => (c :: l) :: ls) := by
  simp [splitNl, hc]

theorem splitNl_append (a b : List Char) :
    splitNl (a ++ b) =
      (splitNl a).dropLast ++ splitNl ((splitNl a).getLastD [] ++ b) := by
  induction a with
  | nil => simp [splitNl]
  | cons c a' ih =>
    by_cases hc : c = '\n'
    · subst hc
      rw [List.cons_append, splitNl_cons_nl (a' ++ b), splitNl_cons_nl a', ih]
      cases hsa : splitNl a' with
      | nil => exact absurd hsa (splitNl_ne_nil a')
      | cons la lsa =>
        rw [List.dropLast_cons₂]
        have hg : (([] : List Char) :: la :: lsa).getLastD [] = (la :: lsa).getLastD [] :=
          List.getLastD_cons _ _ _
        rw [hg]
        simp only [List.cons_append]
    · rw [List.cons_append, splitNl_cons_ne c (a' ++ b) hc, splitNl_cons_ne c a' hc]
      cases hsa : splitNl a' with
      | nil => exact absurd hsa (splitNl_ne_nil a')
      | cons la lsa =>
        rw [hsa] at ih
        cases hsb : splitNl (a' ++ b) with
        | nil => exact absurd hsb (splitNl_ne_nil (a' ++ b))
        | cons mb msb =>
          rw [hsb] at ih
          cases lsa with
          | nil =>
            have hIH : mb :: msb = splitNl (la ++ b) := by
              rw [ih]
              show [la].dropLast ++ splitNl ([la].getLastD [] ++ b) = _
              rfl
            show (c :: mb) :: msb
                = ((c :: la) :: ([] : List (List Char))).dropLast
                  ++ splitNl (((c :: la) :: ([] : List (List Char))).getLastD [] ++ b)
            show (c :: mb) :: msb = [] ++ splitNl ((c :: la) ++ b)
            rw [List.nil_append, List.cons_append, splitNl_cons_ne c (la ++ b) hc, ← hIH]
          | cons x xs =>
            have hIH : mb :: msb
                = la :: ((x :: xs).dropLast ++ splitNl ((x :: xs).getLastD [] ++ b)) := by
              rw [ih, List.dropLast_cons₂]
              have hg : (la :: x :: xs).getLastD [] = (x :: xs).getLastD [] :=
                List.getLastD_cons _ _ _
              rw [hg]
              simp only [List.cons_append]
            obtain ⟨h1, h2⟩ := List.cons.inj hIH
            show (c :: mb) :: msb
                = ((c :: la) :: x :: xs).dropLast
                  ++ splitNl (((c :: la) :: x :: xs).getLastD [] ++ b)
            rw [List.dropLast_cons₂]
            have hg : ((c :: la) :: x :: xs).getLastD [] = (x :: xs).getLastD [] := by
              rw [List.getLastD_cons]
              exact getLastD_congr (x :: xs) (c :: la) [] (by simp)
            rw [hg, h1, h2]
            simp only [List.cons_append]

theorem joinNl_splitNl (l : List Char) : joinNl (splitNl l) = l := by
  induction l with
  | nil => rfl
  | cons c rest ih =>
    by_cases hc : c = '\n'
    · subst hc
      rw [splitNl_cons_nl]
      cases hs : splitNl rest with
      | nil => exact absurd hs (splitNl_ne_nil rest)
      | cons x xs =>
        show [] ++ '\n' :: joinNl (x :: xs) = '\n' :: rest
        rw [← hs, ih]
        rfl
    · rw [splitNl_cons_ne c rest hc]
      cases hs : splitNl rest with
      | nil => exact absurd hs (splitNl_ne_nil rest)
      | cons x xs =>
        cases xs with
        | nil =>
          show c :: x = c :: rest
          rw [← ih, hs]
          rfl
        | cons y ys =>
          show (c :: x) ++ '\n' :: joinNl (y :: ys) = c :: rest
          rw [← ih, hs]
          rfl

theorem splitNl_last_no_nl (l : List Char) :
    ∀ x ∈ (splitNl l).getLastD [], ¬ x = '\n' := by
  induction l with
  | nil => intro x hx; simp [splitNl] at hx
  | cons c rest ih =>
    by_cases hc : c = '\n'
    · subst hc
      rw [splitNl_cons_nl, List.getLastD_cons]
      exact ih
    · rw [splitNl_cons_ne c rest hc]
      cases hs : splitNl rest with
      | nil => exact absurd hs (splitNl_ne_nil rest)
      | cons x xs =>
        rw [hs] at ih
        cases xs with
        | nil =>
          intro y hy
          simp only [List.getLastD_cons, List.getLastD_nil] at hy
          rcases List.mem_cons.mp hy with rfl | hy'
          · exact hc
          · exact ih y (by simpa using hy')
        | cons z zs =>
          intro y hy
          rw [List.getLastD_cons] at hy
          rw [getLastD_congr (z :: zs) (c :: x) x (by simp)] at hy
          refine ih y ?_
          rw [List.getLastD_cons]
          exact hy

theorem dropLast_append_getLastD (s : List (List Char)) (h : s ≠ []) :
    s.dropLast ++ [s.getLastD []] = s := by
  induction s with
  | nil => exact absurd rfl h
  | cons x t ih =>
    cases t with
    | nil => rfl
    | cons y u =>
      rw [List.dropLast_cons₂, List.getLastD_cons]
      rw [getLastD_congr (y :: u) x [] (by simp)]
      rw [List.cons_append, ih (by simp)]

theorem processLines_append (parse : List Char → Option JsonRpcResponse)
    (st : ClientState) (l1 l2 : List (List Char)) :
    processLines parse st (l1 ++ l2) =
      ((processLines parse (processLines parse st l1).1 l2).1,
       (processLines parse st l1).2 ++ (processLines parse (processLines parse st l1).1 l2).2) := by
  induction l1 generalizing st with
  | nil => rfl
  | cons l ls ih =>
    have h2 := ih (processLine parse st l).1
    show ((processLines parse (processLine parse st l).1 (ls ++ l2)).1,
          (processLine parse st l).2
            ++ (processLines parse (processLine parse st l).1 (ls ++ l2)).2)
        = ((processLines parse (processLines parse (processLine parse st l).1 ls).1 l2).1,
           ((processLine parse st l).2 ++ (processLines parse (processLine parse st l).1 ls).2)
             ++ (processLines parse (processLines parse (processLine parse st l).1 ls).1 l2).2)
    rw [h2]
    simp [List.append_assoc]

theorem handleMessage_buffer (st : ClientState) (b : List Char) (m : JsonRpcResponse) :
    handleMessage { st with buffer := b } m
      = ({ (handleMessage st m).1 with buffer := b }, (handleMessage st m).2) := by
  cases hid : m.id with
  | none => simp [handleMessage, hid]
  | some i =>
    cases hget : mapGet st.pendingRequests i with
    | none =>
      have hget' : mapGet ({ st with buffer := b } : ClientState).pendingRequests i = none := hget
      simp [handleMessage, hid, hget, hget']
    | some c =>
      have hget' : mapGet ({ st with buffer := b } : ClientState).pendingRequests i = some c := hget
      cases herr : m.error with
      | some e => simp [handleMessage, hid, hget, hget', herr]
      | none => simp [handleMessage, hid, hget, hget', herr]

theorem processLine_buffer (parse : List Char → Option JsonRpcResponse)
    (st : ClientState) (b : List Char) (l : List Char) :
    processLine parse { st with buffer := b } l
      = ({ (processLine parse st l).1 with buffer := b }, (processLine parse st l).2) := by
  unfold processLine
  by_cases hb : lineNonBlank l = true
  · rw [if_pos hb, if_pos hb]
    cases hp : parse l with
    | none => rfl
    | some msg =>
      exact handleMessage_buffer { st with log := st.log ++ [.received l] } b msg
  · rw [if_neg hb, if_neg hb]

theorem processLines_buffer (parse : List Char → Option JsonRpcResponse)
    (st : ClientState) (b : List Char) (ls : List (List Char)) :
    processLines parse { st with buffer := b } ls
      = ({ (processLines parse st ls).1 with buffer := b }, (processLines parse st ls).2) := by
  induction ls generalizing st with
  | nil => rfl
  | cons l ls ih =>
    have h2 := ih (processLine parse st l).1
    calc processLines parse { st with buffer := b } (l :: ls)
        = ((processLines parse (processLine parse { st with buffer := b } l).1 ls).1,
           (processLine parse { st with buffer := b } l).2
             ++ (processLines parse (processLine parse { st with buffer := b } l).1 ls).2) := rfl
      _ = ((processLines parse { (processLine parse st l).1 with buffer := b } ls).1,
           (processLine parse st l).2
             ++ (processLines parse { (processLine parse st l).1 with buffer := b } ls).2) := by
            rw [processLine_buffer parse st b l]
      _ = ({ (processLines parse (processLine parse st l).1 ls).1 with buffer := b },
           (processLine parse st l).2 ++ (processLines parse (processLine parse st l).1 ls).2) := by
            rw [h2]
      _ = ({ (processLines parse st (l :: ls)).1 with buffer := b },
           (processLines parse st (l :: ls)).2) := rfl

theorem handleData_buffer_eq (parse : List Char → Option JsonRpcResponse)
    (st : ClientState) (chunk : List Char) :
    (handleData parse st chunk).1.buffer
      = (splitNl (st.buffer ++ chunk)).getLastD [] := by
  unfold handleData
  exact (processLines_frame parse
    { st with buffer := (splitNl (st.buffer ++ chunk)).getLastD [] }
    (splitNl (st.buffer ++ chunk)).dropLast).2.2.2.2.1

theorem getLastD_append_right {α : Type} (xs ys : List α) (d : α) (h : ys ≠ []) :
    (xs ++ ys).getLastD d = ys.getLastD d := by
  induction xs with
  | nil => rfl
  | cons x t ih =>
    rw [List.cons_append, List.getLastD_cons]
    rw [getLastD_congr (t ++ ys) x d (by simp [h])]
    exact ih

theorem handleData_chunks (parse : List Char → Option JsonRpcResponse)
    (st : ClientState) (c1 c2 : List Char) :
    (handleData parse st (c1 ++ c2)).1 = (handleData parse (handleData parse st c1).1 c2).1 ∧
    (handleData parse st (c1 ++ c2)).2 =
      (handleData parse st c1).2 ++ (handleData parse (handleData parse st c1).1 c2).2 := by
  have hg1 : (handleData parse st c1).1.buffer = (splitNl (st.buffer ++ c1)).getLastD [] :=
    handleData_buffer_eq parse st c1
  have hsplit : splitNl (st.buffer ++ (c1 ++ c2))
      = (splitNl (st.buffer ++ c1)).dropLast
        ++ splitNl ((splitNl (st.buffer ++ c1)).getLastD [] ++ c2) := by
    rw [← List.append_assoc]
    exact splitNl_append (st.buffer ++ c1) c2
  have hne2 : splitNl ((splitNl (st.buffer ++ c1)).getLastD [] ++ c2) ≠ [] :=
    splitNl_ne_nil _
  have hlast : (splitNl (st.buffer ++ (c1 ++ c2))).getLastD []
      = (splitNl ((splitNl (st.buffer ++ c1)).getLastD [] ++ c2)).getLastD [] := by
    rw [hsplit]
    exact getLastD_append_right _ _ [] hne2
  have hdrop : (splitNl (st.buffer ++ (c1 ++ c2))).dropLast
      = (splitNl (st.buffer ++ c1)).dropLast
        ++ (splitNl ((splitNl (st.buffer ++ c1)).getLastD [] ++ c2)).dropLast := by
    rw [hsplit]
    exact List.dropLast_append_of_ne_nil _ hne2
  have hS1 : (handleData parse st c1).1
      = { (processLines parse st (splitNl (st.buffer ++ c1)).dropLast).1 with
          buffer := (splitNl (st.buffer ++ c1)).getLastD [] } := by
    show (processLines parse
        { st with buffer := (splitNl (st.buffer ++ c1)).getLastD [] }
        (splitNl (st.buffer ++ c1)).dropLast).1 = _
    rw [processLines_buffer parse st ((splitNl (st.buffer ++ c1)).getLastD [])
      (splitNl (st.buffer ++ c1)).dropLast]
  have hE1 : (handleData parse st c1).2
      = (processLines parse st (splitNl (st.buffer ++ c1)).dropLast).2 := by
    show (processLines parse
        { st with buffer := (splitNl (st.buffer ++ c1)).getLastD [] }
        (splitNl (st.buffer ++ c1)).dropLast).2 = _
    rw [processLines_buffer parse st ((splitNl (st.buffer ++ c1)).getLastD [])
      (splitNl (st.buffer ++ c1)).dropLast]
  have e1 : handleData parse st (c1 ++ c2)
      = ((processLines parse
            { (processLines parse st (splitNl (st.buffer ++ c1)).dropLast).1 with
              buffer := (splitNl ((splitNl (st.buffer ++ c1)).getLastD [] ++ c2)).getLastD [] }
            (splitNl ((splitNl (st.buffer ++ c1)).getLastD [] ++ c2)).dropLast).1,
         (processLines parse st (splitNl (st.buffer ++ c1)).dropLast).2
           ++ (processLines parse
                { (processLines parse st (splitNl (st.buffer ++ c1)).dropLast).1 with
                  buffer := (splitNl ((splitNl (st.buffer ++ c1)).getLastD [] ++ c2)).getLastD [] }
                (splitNl ((splitNl (st.buffer ++ c1)).getLastD [] ++ c2)).dropLast).2) := by
    show processLines parse
        { st with buffer := (splitNl (st.buffer ++ (c1 ++ c2))).getLastD [] }
        (splitNl (st.buffer ++ (c1 ++ c2))).dropLast = _
    rw [hlast, hdrop]
    rw [processLines_append parse
      { st with buffer := (splitNl ((splitNl (st.buffer ++ c1)).getLastD [] ++ c2)).getLastD [] }
      (splitNl (st.buffer ++ c1)).dropLast
      (splitNl ((splitNl (st.buffer ++ c1)).getLastD [] ++ c2)).dropLast]
    rw [processLines_buffer parse st
      ((splitNl ((splitNl (st.buffer ++ c1)).getLastD [] ++ c2)).getLastD [])
      (splitNl (st.buffer ++ c1)).dropLast]
  have e2 : handleData parse (handleData parse st c1).1 c2
      = ((processLines parse
            { (processLines parse st (splitNl (st.buffer ++ c1)).dropLast).1 with
              buffer := (splitNl ((splitNl (st.buffer ++ c1)).getLastD [] ++ c2)).getLastD [] }
            (splitNl ((splitNl (st.buffer ++ c1)).getLastD [] ++ c2)).dropLast).1,
         (processLines parse
            { (processLines parse st (splitNl (st.buffer ++ c1)).dropLast).1 with
              buffer := (splitNl ((splitNl (st.buffer ++ c1)).getLastD [] ++ c2)).getLastD [] }
            (splitNl ((splitNl (st.buffer ++ c1)).getLastD [] ++ c2)).dropLast).2) := by
    show processLines parse
        { (handleData parse st c1).1 with
          buffer := (splitNl ((handleData parse st c1).1.buffer ++ c2)).getLastD [] }
        (splitNl ((handleData parse st c1).1.buffer ++ c2)).dropLast = _
    rw [hg1, hS1]
  constructor
  · rw [e1, e2]
  · rw [e1, e2, hE1]

/-- C7 (amended): stream framing is chunking-invariant — processing
`c1 ++ c2` equals processing `c1` then `c2`, the incomplete trailing
fragment being retained in the buffer and prefixed to the next chunk; the
new buffer is newline-free and rejoining the processed frames with it
reconstructs the input; the transport and (for unparsable lines) the
pending table are untouched; a non-blank line that fails JSON parsing logs
a diagnostic and is dropped, while a whitespace-only line is dropped
silently without a diagnostic. -/
theorem c7_stream_framing (parse : List Char → Option JsonRpcResponse)
    (st : ClientState) :
    (∀ c1 c2,
      (handleData parse st (c1 ++ c2)).1 = (handleData parse (handleData parse st c1).1 c2).1 ∧
      (handleData parse st (c1 ++ c2)).2 =
        (handleData parse st c1).2 ++ (handleData parse (handleData parse st c1).1 c2).2) ∧
    (∀ chunk,
      (∀ x ∈ (handleData parse st chunk).1.buffer, ¬ x = '\n') ∧
      joinNl ((splitNl (st.buffer ++ chunk)).dropLast
          ++ [(handleData parse st chunk).1.buffer]) = st.buffer ++ chunk ∧
      (handleData parse st chunk).1.process = st.process ∧
      (handleData parse st chunk).1.ws = st.ws ∧
      (handleData parse st chunk).1.httpUrl = st.httpUrl) ∧
    (∀ line, lineNonBlank line = true → parse line = none →
      processLine parse st line
        = ({ st with log := st.log ++ [.received line, .parseFailed line] }, [])) ∧
    (∀ line, lineNonBlank line = false → processLine parse st line = (st, [])) := by
  refine ⟨fun c1 c2 => handleData_chunks parse st c1 c2, fun chunk => ?_,
    fun line hb hp => ?_, fun line hb => ?_⟩
  · have hbuf := handleData_buffer_eq parse st chunk
    refine ⟨?_, ?_, (handleData_frame parse st chunk).2.1,
      (handleData_frame parse st chunk).2.2.1,
      (handleData_frame parse st chunk).2.2.2.1⟩
    · rw [hbuf]
      exact splitNl_last_no_nl (st.buffer ++ chunk)
    · rw [hbuf, dropLast_append_getLastD _ (splitNl_ne_nil _)]
      exact joinNl_splitNl _
  · unfold processLine
    rw [if_pos hb, hp]
    simp
  · unfold processLine
    rw [if_neg (by rw [hb]; intro hc; cases hc)]

/-- C7 counterexample: a whitespace-only frame (`" \n"`) fails JSON parsing
(the oracle rejects every line) yet is dropped silently: the state is
unchanged and no diagnostic is logged, contradicting "for any line that
fails JSON parsing it logs a diagnostic". -/
theorem c7_cex :
    parse0 [' '] = none ∧
    handleData parse0 st0 [' ', '\n'] = (st0, []) ∧
    (handleData parse0 st0 [' ', '\n']).1.log = st0.log := ⟨rfl, rfl, rfl⟩

/-- C7 witness: a non-blank unparsable line at concrete inputs is logged
and dropped with the state otherwise untouched. -/
theorem c7_witness :
    processLine parse0 stR ['x']
      = ({ stR with log := stR.log ++ [.received ['x'], .parseFailed ['x']] }, []) :=
  (c7_stream_framing parse0 stR).2.2.1 ['x'] (by decide) rfl

end McpProxy
